import Mathlib

/-!
Verification of the buffered-range analysis and progress-estimation engine of
the video-download-tracker library.

Times and epsilons are modelled as rationals, byte counts and byte offsets as
integers.  `BufferCalculationService` (mergeRanges, isFullyDownloaded,
timeToByteRange, calculateTotalBytes) is embedded as pure functions, and the
`VideoBufferTracker` mutable fields (`estimatedDownloadedBytes`,
`submittedBytesBaseline`, `hasSubmittedFullDownload`, `lastProbedEnd`) as an
explicit state record threaded through the handler functions.  The outcome of
the asynchronous emission dispatch (user callback / analytics delivery) is an
explicit environment value.
-/

/-- A buffered time range as read from the media element.  The source field
`end` is a Lean keyword, so it is called `stop` here. -/
structure BufferedRange where
  start : ℚ
  stop : ℚ
deriving DecidableEq, Repr

/-- Comparison used by the sort in `mergeRanges`
(`(a, b) => a.start - b.start`, ascending by `start`). -/
def rangeStartLe (a b : BufferedRange) : Prop := a.start ≤ b.start

instance : DecidableRel rangeStartLe :=
  fun a b => inferInstanceAs (Decidable (a.start ≤ b.start))

instance : IsTotal BufferedRange rangeStartLe := ⟨fun a b => le_total a.start b.start⟩

instance : IsTrans BufferedRange rangeStartLe := ⟨fun _ _ _ h h' => le_trans h h'⟩

/-- `[...ranges].sort((a, b) => a.start - b.start)` — a stable ascending sort
by `start`. -/
def sortRanges (l : List BufferedRange) : List BufferedRange :=
  List.insertionSort rangeStartLe l

/-- The sweep loop of `mergeRanges`: `cur` is the currently open output range
(the JS code mutates the last pushed element; here it stays in the
accumulator until it is frozen by a push). -/
def mergeSorted (eps : ℚ) : BufferedRange → List BufferedRange → List BufferedRange
  | cur, [] => [cur]
  | cur, r :: rest =>
    if r.start - cur.stop ≤ eps then
      mergeSorted eps ⟨cur.start, max cur.stop r.stop⟩ rest
    else
      cur :: mergeSorted eps r rest

/-- `BufferCalculationService.mergeRanges` (part_003 lines 50-72); the
historical variant (part_000 lines 686-708) runs the identical sort-and-sweep
and also yields `[]` on empty input. -/
def mergeRanges (ranges : List BufferedRange) (eps : ℚ) : List BufferedRange :=
  match sortRanges ranges with
  | [] => []
  | r :: rest => mergeSorted eps r rest

/-- The `covered` accumulation in `isFullyDownloaded`:
`covered += Math.max(0, range.end - range.start)`. -/
def coveredSeconds (l : List BufferedRange) : ℚ :=
  l.foldl (fun acc r => acc + max 0 (r.stop - r.start)) 0

/-- `BufferCalculationService.isFullyDownloaded` (part_003 lines 77-99). -/
def isFullyDownloaded (ranges : List BufferedRange) (duration eps : ℚ) : Bool :=
  if ranges = [] then false
  else if duration ≤ 0 then false
  else decide (duration - eps ≤ coveredSeconds (mergeRanges ranges eps))

/-- `BufferCalculationService.timeToByteRange` (part_003 lines 104-123).
JS falsiness of `!duration || !totalSize` is the zero test (NaN does not
arise over ℚ).  Returns the inclusive byte interval or `none`. -/
def timeToByteRange (startTime endTime duration : ℚ) (totalSize : ℤ) :
    Option (ℤ × ℤ) :=
  if duration = 0 ∨ totalSize = 0 ∨ startTime < 0 ∨ endTime ≤ startTime then none
  else
    let s : ℤ := max 0 ⌊startTime / duration * (totalSize : ℚ)⌋
    let e : ℤ := min (totalSize - 1) ⌊endTime / duration * (totalSize : ℚ)⌋
    if e ≤ s then none else some (s, e)

/-- `BufferCalculationService.calculateTotalBytes` (part_003 lines 128-149):
sums `end - start + 1` over the ranges that convert; no merging happens
inside this routine. -/
def calculateTotalBytes (ranges : List BufferedRange) (duration : ℚ)
    (totalSize : ℤ) : ℤ :=
  ranges.foldl
    (fun acc r =>
      match timeToByteRange r.start r.stop duration totalSize with
      | none => acc
      | some (s, e) => acc + (e - s + 1))
    0

/-- The mutable tracking fields of `VideoBufferTracker` (part_000 lines
97-100). -/
structure TrackerState where
  estimatedDownloadedBytes : ℤ
  submittedBytesBaseline : ℤ
  hasSubmittedFullDownload : Bool
  lastProbedEnd : ℚ
deriving DecidableEq, Repr

/-- Field values right after `setupVideoTracking` (and after `destroy`). -/
def initState : TrackerState :=
  { estimatedDownloadedBytes := 0
    submittedBytesBaseline := 0
    hasSubmittedFullDownload := false
    lastProbedEnd := -1 }

/-- Outcome of one emission dispatch.  `callUserCallback` rethrows a failing
user callback; `AnalyticsService.sendBufferData` swallows every failure and
merely returns `false`, so `deliveryOk` can never abort `handleBufferData`. -/
structure EmitEnv where
  callbackThrows : Bool
  deliveryOk : Bool
deriving DecidableEq, Repr

/-- `handleBufferData` (part_000 lines 416-441).  Returns the new state and
the `file_size` of the `BufferData` record whose dispatch was attempted
(`none` when `estimatedDownloadedBytes ≤ 0` and nothing is dispatched).
The in-place reset of `estimatedDownloadedBytes` and `lastProbedEnd` runs
only when the awaited dispatch did not throw. -/
def handleBufferData (env : EmitEnv) (s : TrackerState) :
    TrackerState × Option ℤ :=
  if s.estimatedDownloadedBytes ≤ 0 then (s, none)
  else if env.callbackThrows then (s, some s.estimatedDownloadedBytes)
  else ({ s with estimatedDownloadedBytes := 0, lastProbedEnd := -1 },
        some s.estimatedDownloadedBytes)

/-- `updateDownloadMetrics` (part_000 lines 401-411).  The assignment
`submittedBytesBaseline = totalBytes` is unconditional; it and the
success-only reset inside `handleBufferData` touch disjoint fields, so the
sequential composition gives the same final state as the real interleaving
of the unawaited async call. -/
def updateDownloadMetrics (totalSize : ℤ) (env : EmitEnv) (s : TrackerState)
    (totalBytes : ℤ) : TrackerState × Option ℤ :=
  let deltaBytes := max 0 (totalBytes - s.submittedBytesBaseline)
  let s1 := { s with estimatedDownloadedBytes := deltaBytes }
  let s2 :=
    if totalSize ≤ totalBytes then { s1 with hasSubmittedFullDownload := true }
    else s1
  let p := handleBufferData env s2
  ({ p.1 with submittedBytesBaseline := totalBytes }, p.2)

/-- `performFinalProbe` (part_000 lines 381-396): guards on missing
duration / total size / ranges, then feeds `calculateTotalBytes` of the RAW
(unmerged) buffered ranges into `updateDownloadMetrics`. -/
def performFinalProbe (duration : ℚ) (totalSize : ℤ) (env : EmitEnv)
    (s : TrackerState) (ranges : List BufferedRange) : TrackerState × Option ℤ :=
  if duration = 0 ∨ totalSize = 0 then (s, none)
  else if ranges = [] then (s, none)
  else updateDownloadMetrics totalSize env s
    (calculateTotalBytes ranges duration totalSize)

/-- The handler produced by `createFinalizeHandler` (part_000 lines 320-332),
which all three finalize triggers (near end of playback, page exit,
visibility hidden) invoke: a no-op once `hasSubmittedFullDownload` is set. -/
def finalizeHandler (duration : ℚ) (totalSize : ℤ) (env : EmitEnv)
    (s : TrackerState) (ranges : List BufferedRange) : TrackerState × Option ℤ :=
  if s.hasSubmittedFullDownload then (s, none)
  else performFinalProbe duration totalSize env s ranges

/-- `updateProgressEstimate` (part_000 lines 337-362).  `ranges[length-1]`
is the last RAW range; the throttle interval is `progressThrottleMs / 1000`
seconds.  This path never emits. -/
def updateProgressEstimate (throttleMs duration : ℚ) (totalSize : ℤ)
    (s : TrackerState) (ranges : List BufferedRange) : TrackerState :=
  match ranges.getLast? with
  | none => s
  | some lastRange =>
    if 0 ≤ s.lastProbedEnd ∧
        lastRange.stop - s.lastProbedEnd < throttleMs / 1000 then s
    else
      let s1 := { s with lastProbedEnd := lastRange.stop }
      let totalBytes := calculateTotalBytes ranges duration totalSize
      if 0 < totalBytes then { s1 with estimatedDownloadedBytes := totalBytes }
      else s1

/-- `handleFullDownload` (part_000 lines 367-376): direct
`totalSize - submittedBytesBaseline` estimate, sets the terminal flag, then
emits; `submittedBytesBaseline` itself is not touched on this path. -/
def handleFullDownload (totalSize : ℤ) (env : EmitEnv) (s : TrackerState) :
    TrackerState × Option ℤ :=
  handleBufferData env
    { s with
      estimatedDownloadedBytes := totalSize - s.submittedBytesBaseline
      hasSubmittedFullDownload := true }

/-- The handler produced by `createProgressHandler` (part_000 lines 253-289):
guards, full-coverage fast path, otherwise the throttled progress estimate
(which emits nothing). -/
def progressHandler (eps throttleMs duration : ℚ) (totalSize : ℤ)
    (env : EmitEnv) (s : TrackerState) (ranges : List BufferedRange) :
    TrackerState × Option ℤ :=
  if s.hasSubmittedFullDownload then (s, none)
  else if duration = 0 ∨ totalSize = 0 then (s, none)
  else if ranges = [] then (s, none)
  else if isFullyDownloaded ranges duration eps then
    handleFullDownload totalSize env s
  else (updateProgressEstimate throttleMs duration totalSize s ranges, none)

/-- End time of the last range of a list (`merged[merged.length - 1].end`). -/
def lastStop (l : List BufferedRange) : ℚ := (l.getLastD ⟨0, 0⟩).stop

/-- Gap property of consecutive merged ranges: the sweep closes a range only
when the next input starts more than `eps` after it ends. -/
def gapGT (eps : ℚ) (a b : BufferedRange) : Prop := a.stop + eps < b.start

/-- Running maximum of the `stop` fields, seeded with `a`. -/
def maxStopFrom (a : ℚ) (l : List BufferedRange) : ℚ :=
  l.foldl (fun m r => max m r.stop) a

lemma maxStopFrom_cons (a : ℚ) (r : BufferedRange) (l : List BufferedRange) :
    maxStopFrom a (r :: l) = maxStopFrom (max a r.stop) l := rfl

lemma le_maxStopFrom (a : ℚ) (l : List BufferedRange) : a ≤ maxStopFrom a l := by
  induction l generalizing a with
  | nil => simp [maxStopFrom]
  | cons r rest ih => exact le_trans (le_max_left _ _) (ih (max a r.stop))

lemma stop_le_maxStopFrom {r : BufferedRange} {l : List BufferedRange} (a : ℚ)
    (h : r ∈ l) : r.stop ≤ maxStopFrom a l := by
  induction l generalizing a with
  | nil => cases h
  | cons x rest ih =>
    rcases List.mem_cons.mp h with h | h
    · subst h; exact le_trans (le_max_right _ _) (le_maxStopFrom _ _)
    · exact ih _ h

lemma mergeSorted_ne_nil (eps : ℚ) (cur : BufferedRange) (l : List BufferedRange) :
    mergeSorted eps cur l ≠ [] := by
  induction l generalizing cur with
  | nil => simp [mergeSorted]
  | cons r rest ih =>
    simp only [mergeSorted]
    split
    · exact ih _
    · simp

lemma mergeSorted_head_start (eps : ℚ) (l : List BufferedRange)
    (cur b : BufferedRange) (hb : (mergeSorted eps cur l).head? = some b) :
    b.start = cur.start := by
  induction l generalizing cur with
  | nil =>
    simp only [mergeSorted, List.head?_cons, Option.some.injEq] at hb
    rw [← hb]
  | cons r rest ih =>
    simp only [mergeSorted] at hb
    split at hb
    · exact ih ⟨cur.start, max cur.stop r.stop⟩ hb
    · simp only [List.head?_cons, Option.some.injEq] at hb
      rw [← hb]

lemma lastStop_cons_of_ne_nil {l : List BufferedRange} (a : BufferedRange)
    (h : l ≠ []) : lastStop (a :: l) = lastStop l := by
  unfold lastStop
  cases l with
  | nil => exact absurd rfl h
  | cons b t => rw [List.getLastD_cons, List.getLastD_cons, List.getLastD_cons]

lemma mergeSorted_lastStop (eps : ℚ) (l : List BufferedRange)
    (cur : BufferedRange) (hwf : ∀ r ∈ l, r.start < r.stop) (heps : 0 ≤ eps) :
    lastStop (mergeSorted eps cur l) = maxStopFrom cur.stop l := by
  induction l generalizing cur with
  | nil => simp [mergeSorted, lastStop, maxStopFrom]
  | cons r rest ih =>
    have hwtail : ∀ x ∈ rest, x.start < x.stop :=
      fun x hx => hwf x (List.mem_cons_of_mem _ hx)
    simp only [mergeSorted]
    split
    · rw [ih _ hwtail]
      rfl
    · rename_i h
      rw [lastStop_cons_of_ne_nil _ (mergeSorted_ne_nil eps r rest), ih r hwtail,
        maxStopFrom_cons]
      have h2 : r.start < r.stop := hwf r (List.mem_cons_self _ _)
      have h3 : eps < r.start - cur.stop := lt_of_not_le h
      have : cur.stop < r.stop := by linarith
      rw [max_eq_right (le_of_lt this)]

lemma mergeSorted_wf (eps : ℚ) (l : List BufferedRange) (cur : BufferedRange)
    (hcur : cur.start < cur.stop) (hwf : ∀ r ∈ l, r.start < r.stop) :
    ∀ m ∈ mergeSorted eps cur l, m.start < m.stop := by
  induction l generalizing cur with
  | nil => simpa [mergeSorted] using hcur
  | cons r rest ih =>
    have hwtail : ∀ x ∈ rest, x.start < x.stop :=
      fun x hx => hwf x (List.mem_cons_of_mem _ hx)
    simp only [mergeSorted]
    split
    · exact ih ⟨cur.start, max cur.stop r.stop⟩
        (lt_of_lt_of_le hcur (le_max_left _ _)) hwtail
    · intro m hm
      rcases List.mem_cons.mp hm with h | h
      · subst h; exact hcur
      · exact ih r (hwf r (List.mem_cons_self _ _)) hwtail m h

lemma mergeSorted_chain (eps : ℚ) (l : List BufferedRange) (cur : BufferedRange) :
    List.Chain' (gapGT eps) (mergeSorted eps cur l) := by
  induction l generalizing cur with
  | nil => simp [mergeSorted]
  | cons r rest ih =>
    simp only [mergeSorted]
    split
    · exact ih _
    · rename_i h
      rw [List.chain'_cons']
      refine ⟨fun b hb => ?_, ih r⟩
      have hb' : b.start = r.start := mergeSorted_head_start eps rest r b hb
      have h3 : eps < r.start - cur.stop := lt_of_not_le h
      unfold gapGT
      rw [hb']
      linarith

lemma mergeSorted_eq_of_chain (eps : ℚ) (l : List BufferedRange)
    (cur : BufferedRange) (h : List.Chain' (gapGT eps) (cur :: l)) :
    mergeSorted eps cur l = cur :: l := by
  induction l generalizing cur with
  | nil => simp [mergeSorted]
  | cons r rest ih =>
    rw [List.chain'_cons] at h
    have hgap : cur.stop + eps < r.start := h.1
    simp only [mergeSorted]
    rw [if_neg (by simp only [not_le]; linarith), ih r h.2]

lemma chain_startLe_of_gap (eps : ℚ) (heps : 0 ≤ eps) (l : List BufferedRange)
    (hc : List.Chain' (gapGT eps) l) (hwf : ∀ r ∈ l, r.start < r.stop) :
    List.Chain' rangeStartLe l := by
  induction l with
  | nil => simp
  | cons a t ih =>
    cases t with
    | nil => simp
    | cons b t' =>
      rw [List.chain'_cons] at hc ⊢
      refine ⟨?_, ih hc.2 (fun x hx => hwf x (List.mem_cons_of_mem _ hx))⟩
      have h1 : a.start < a.stop := hwf a (List.mem_cons_self _ _)
      have h2 : a.stop + eps < b.start := hc.1
      show a.start ≤ b.start
      linarith

lemma sorted_of_chain_startLe {l : List BufferedRange}
    (h : List.Chain' rangeStartLe l) : List.Sorted rangeStartLe l :=
  List.chain'_iff_pairwise.mp h

lemma mergeRanges_eq_of_sort {l : List BufferedRange} {eps : ℚ}
    {c : BufferedRange} {rest : List BufferedRange}
    (hs : sortRanges l = c :: rest) :
    mergeRanges l eps = mergeSorted eps c rest := by
  rw [mergeRanges, hs]

lemma mergeRanges_wf (l : List BufferedRange) (eps : ℚ)
    (hwf : ∀ r ∈ l, r.start < r.stop) :
    ∀ m ∈ mergeRanges l eps, m.start < m.stop := by
  have hwf' : ∀ r ∈ sortRanges l, r.start < r.stop := fun r hr =>
    hwf r ((List.mem_insertionSort _).mp hr)
  cases hs : sortRanges l with
  | nil =>
    rw [mergeRanges, hs]
    simp
  | cons c rest =>
    rw [mergeRanges_eq_of_sort hs]
    rw [hs] at hwf'
    exact mergeSorted_wf eps rest c (hwf' c (List.mem_cons_self _ _))
      (fun x hx => hwf' x (List.mem_cons_of_mem _ hx))

lemma mergeRanges_chain (l : List BufferedRange) (eps : ℚ) :
    List.Chain' (gapGT eps) (mergeRanges l eps) := by
  cases hs : sortRanges l with
  | nil =>
    rw [mergeRanges, hs]
    simp
  | cons c rest =>
    rw [mergeRanges_eq_of_sort hs]
    exact mergeSorted_chain eps rest c

lemma stop_le_lastStop_mergeRanges (l : List BufferedRange) (eps : ℚ)
    (hwf : ∀ r ∈ l, r.start < r.stop) (heps : 0 ≤ eps) {r : BufferedRange}
    (hr : r ∈ l) : r.stop ≤ lastStop (mergeRanges l eps) := by
  have hr' : r ∈ sortRanges l := (List.mem_insertionSort _).mpr hr
  have hwf' : ∀ x ∈ sortRanges l, x.start < x.stop := fun x hx =>
    hwf x ((List.mem_insertionSort _).mp hx)
  cases hs : sortRanges l with
  | nil =>
    rw [hs] at hr'
    cases hr'
  | cons c rest =>
    rw [hs] at hr' hwf'
    rw [mergeRanges_eq_of_sort hs,
      mergeSorted_lastStop eps rest c
        (fun x hx => hwf' x (List.mem_cons_of_mem _ hx)) heps]
    rcases List.mem_cons.mp hr' with h | h
    · rw [h]
      exact le_maxStopFrom _ _
    · exact stop_le_maxStopFrom _ h

lemma sorted_sortRanges (l : List BufferedRange) :
    List.Sorted rangeStartLe (sortRanges l) :=
  List.sorted_insertionSort rangeStartLe l

lemma mergeSorted_covers (eps t : ℚ) (l : List BufferedRange)
    (cur : BufferedRange) (hs : List.Sorted rangeStartLe (cur :: l))
    (h : (cur.start ≤ t ∧ t ≤ cur.stop) ∨ ∃ r ∈ l, r.start ≤ t ∧ t ≤ r.stop) :
    ∃ m ∈ mergeSorted eps cur l, m.start ≤ t ∧ t ≤ m.stop := by
  induction l generalizing cur with
  | nil =>
    simp only [mergeSorted]
    rcases h with h | ⟨r, hr, _⟩
    · exact ⟨cur, List.mem_singleton.mpr rfl, h⟩
    · cases hr
  | cons r rest ih =>
    have hcr : cur.start ≤ r.start :=
      (List.sorted_cons.mp hs).1 r (List.mem_cons_self _ _)
    have hstail : List.Sorted rangeStartLe (r :: rest) := (List.sorted_cons.mp hs).2
    simp only [mergeSorted]
    split
    · apply ih ⟨cur.start, max cur.stop r.stop⟩
      · rw [List.sorted_cons]
        exact ⟨fun x hx => (List.sorted_cons.mp hs).1 x (List.mem_cons_of_mem _ hx),
          (List.sorted_cons.mp hstail).2⟩
      · rcases h with h | ⟨x, hx, hc⟩
        · exact Or.inl ⟨h.1, le_trans h.2 (le_max_left _ _)⟩
        · rcases List.mem_cons.mp hx with h' | hx'
          · subst h'
            exact Or.inl ⟨le_trans hcr hc.1, le_trans hc.2 (le_max_right _ _)⟩
          · exact Or.inr ⟨x, hx', hc⟩
    · rcases h with h | ⟨x, hx, hc⟩
      · exact ⟨cur, List.mem_cons_self _ _, h⟩
      · have hcov : (r.start ≤ t ∧ t ≤ r.stop) ∨
            ∃ y ∈ rest, y.start ≤ t ∧ t ≤ y.stop := by
          rcases List.mem_cons.mp hx with h' | hx'
          · subst h'
            exact Or.inl hc
          · exact Or.inr ⟨x, hx', hc⟩
        obtain ⟨m, hm, hmc⟩ := ih r hstail hcov
        exact ⟨m, List.mem_cons_of_mem _ hm, hmc⟩

/-- C9: merging is idempotent: for every list of well-formed ranges `R`
(`end > start`) and every `epsilon ≥ 0`,
`mergeRanges (mergeRanges R epsilon) epsilon = mergeRanges R epsilon`. -/
theorem claim_C9_merge_idempotent (l : List BufferedRange) (eps : ℚ)
    (hwf : ∀ r ∈ l, r.start < r.stop) (heps : 0 ≤ eps) :
    mergeRanges (mergeRanges l eps) eps = mergeRanges l eps := by
  have hwfM := mergeRanges_wf l eps hwf
  have hchain := mergeRanges_chain l eps
  have hsorted : List.Sorted rangeStartLe (mergeRanges l eps) :=
    sorted_of_chain_startLe (chain_startLe_of_gap eps heps _ hchain hwfM)
  have hsort_eq : sortRanges (mergeRanges l eps) = mergeRanges l eps :=
    List.Sorted.insertionSort_eq hsorted
  cases hM : mergeRanges l eps with
  | nil => rfl
  | cons c rest =>
    rw [hM] at hsort_eq hchain
    rw [mergeRanges_eq_of_sort hsort_eq]
    exact mergeSorted_eq_of_chain eps rest c hchain

theorem claim_C9_witness :
    mergeRanges (mergeRanges [⟨0, 10⟩, ⟨103/10, 20⟩] (1/2)) (1/2) =
      mergeRanges [⟨0, 10⟩, ⟨103/10, 20⟩] (1/2) :=
  claim_C9_merge_idempotent [⟨0, 10⟩, ⟨103/10, 20⟩] (1/2)
    (by norm_num) (by norm_num)

/-- C10: merging never loses coverage: for every list of well-formed ranges,
every `epsilon ≥ 0` and every time point `t` lying inside some input range,
`t` lies inside some range of `mergeRanges ranges epsilon`. -/
theorem claim_C10_merge_covers (l : List BufferedRange) (eps t : ℚ)
    (r : BufferedRange) (hwf : ∀ x ∈ l, x.start < x.stop) (heps : 0 ≤ eps)
    (hr : r ∈ l) (h1 : r.start ≤ t) (h2 : t ≤ r.stop) :
    ∃ m ∈ mergeRanges l eps, m.start ≤ t ∧ t ≤ m.stop := by
  have hr' : r ∈ sortRanges l := (List.mem_insertionSort _).mpr hr
  have hsorted := sorted_sortRanges l
  cases hs : sortRanges l with
  | nil =>
    rw [hs] at hr'
    cases hr'
  | cons c rest =>
    rw [hs] at hr' hsorted
    rw [mergeRanges_eq_of_sort hs]
    apply mergeSorted_covers eps t rest c hsorted
    rcases List.mem_cons.mp hr' with h | h
    · rw [h] at h1 h2
      exact Or.inl ⟨h1, h2⟩
    · exact Or.inr ⟨r, h, h1, h2⟩

theorem claim_C10_witness :
    ∃ m ∈ mergeRanges [⟨0, 10⟩, ⟨103/10, 20⟩] (1/2),
      m.start ≤ 5 ∧ (5 : ℚ) ≤ m.stop :=
  claim_C10_merge_covers [⟨0, 10⟩, ⟨103/10, 20⟩] (1/2) 5 ⟨0, 10⟩
    (by norm_num) (by norm_num) (by simp) (by norm_num) (by norm_num)

lemma updateDownloadMetrics_baseline (totalSize : ℤ) (env : EmitEnv)
    (s : TrackerState) (totalBytes : ℤ) :
    (updateDownloadMetrics totalSize env s totalBytes).1.submittedBytesBaseline =
      totalBytes := rfl

lemma updateDownloadMetrics_after_ok (totalSize : ℤ) (env : EmitEnv)
    (s : TrackerState) (totalBytes : ℤ) (hok : env.callbackThrows = false) :
    (updateDownloadMetrics totalSize env s totalBytes).1.estimatedDownloadedBytes
        = 0 ∧
    (updateDownloadMetrics totalSize env s totalBytes).1.hasSubmittedFullDownload
        = (s.hasSubmittedFullDownload || decide (totalSize ≤ totalBytes)) := by
  have hd : (0 : ℤ) ≤ 0 ⊔ (totalBytes - s.submittedBytesBaseline) := le_max_left _ _
  unfold updateDownloadMetrics handleBufferData
  by_cases hz : (0 : ℤ) ⊔ (totalBytes - s.submittedBytesBaseline) ≤ 0
  · have h0 : (0 : ℤ) ⊔ (totalBytes - s.submittedBytesBaseline) = 0 :=
      le_antisymm hz hd
    by_cases hts : totalSize ≤ totalBytes <;> simp [hts, hz, hok, h0]
  · by_cases hts : totalSize ≤ totalBytes <;> simp [hts, hz, hok]

lemma updateDownloadMetrics_zero_delta (totalSize : ℤ) (env : EmitEnv)
    (s : TrackerState) (totalBytes : ℤ)
    (h : totalBytes ≤ s.submittedBytesBaseline) :
    updateDownloadMetrics totalSize env s totalBytes =
      ({ s with
          estimatedDownloadedBytes := 0
          submittedBytesBaseline := totalBytes
          hasSubmittedFullDownload :=
            s.hasSubmittedFullDownload || decide (totalSize ≤ totalBytes) },
        none) := by
  have hz : (0 : ℤ) ⊔ (totalBytes - s.submittedBytesBaseline) = 0 :=
    max_eq_left (by linarith)
  unfold updateDownloadMetrics handleBufferData
  by_cases hts : totalSize ≤ totalBytes <;> simp [hts, hz]

/-- C5: `mergeRanges` sorts by start ascending and sweeps once, merging
inclusively when `input.start - currentOutput.end ≤ epsilon`; the empty input
yields the empty output; for well-formed input and `epsilon ≥ 0` the result
is well-formed, sorted ascending, pairwise disjoint, with every remaining gap
strictly greater than epsilon; `[0,10],[10.3,20]` merges to `[0,20]` at
`ε = 0.5`, stays two ranges at `ε = 0.1`, and an exact-`ε` gap (`[10.5,20]`
at `ε = 0.5`) still merges. -/
theorem claim_C5_merge_contract (l : List BufferedRange) (eps : ℚ)
    (hwf : ∀ r ∈ l, r.start < r.stop) (heps : 0 ≤ eps) :
    mergeRanges ([] : List BufferedRange) eps = [] ∧
    (∀ m ∈ mergeRanges l eps, m.start < m.stop) ∧
    List.Chain' (gapGT eps) (mergeRanges l eps) ∧
    List.Sorted rangeStartLe (mergeRanges l eps) ∧
    List.Chain' (fun a b => a.stop < b.start) (mergeRanges l eps) ∧
    mergeRanges [⟨0, 10⟩, ⟨103/10, 20⟩] (1/2) = [⟨0, 20⟩] ∧
    mergeRanges [⟨0, 10⟩, ⟨103/10, 20⟩] (1/10) = [⟨0, 10⟩, ⟨103/10, 20⟩] ∧
    mergeRanges [⟨0, 10⟩, ⟨21/2, 20⟩] (1/2) = [⟨0, 20⟩] := by
  have hwfM := mergeRanges_wf l eps hwf
  have hchain := mergeRanges_chain l eps
  refine ⟨rfl, hwfM, hchain,
    sorted_of_chain_startLe (chain_startLe_of_gap eps heps _ hchain hwfM),
    hchain.imp (fun {a b} h => ?_), ?_, ?_, ?_⟩
  · have : a.stop + eps < b.start := h
    linarith
  · norm_num [mergeRanges, sortRanges, List.insertionSort, List.orderedInsert,
      rangeStartLe, mergeSorted]
  · norm_num [mergeRanges, sortRanges, List.insertionSort, List.orderedInsert,
      rangeStartLe, mergeSorted]
  · norm_num [mergeRanges, sortRanges, List.insertionSort, List.orderedInsert,
      rangeStartLe, mergeSorted]

theorem claim_C5_witness :
    (∀ m ∈ mergeRanges [⟨0, 10⟩, ⟨103/10, 20⟩] (1/10), m.start < m.stop) ∧
    List.Chain' (gapGT (1/10)) (mergeRanges [⟨0, 10⟩, ⟨103/10, 20⟩] (1/10)) :=
  ⟨(claim_C5_merge_contract [⟨0, 10⟩, ⟨103/10, 20⟩] (1/10)
      (by norm_num) (by norm_num)).2.1,
   (claim_C5_merge_contract [⟨0, 10⟩, ⟨103/10, 20⟩] (1/10)
      (by norm_num) (by norm_num)).2.2.1⟩

/-- C6: the full-coverage classifier returns true exactly when
`covered ≥ duration - epsilon`, where `covered` sums `max 0 (end - start)`
over the merged ranges; it returns false on empty input or non-positive
duration; merged coverage `duration - ε/2` classifies as fully covered while
`duration - 2ε` does not (for `ε > 0`). -/
theorem claim_C6_full_coverage (l : List BufferedRange) (d eps : ℚ) :
    (l = [] → isFullyDownloaded l d eps = false) ∧
    (d ≤ 0 → isFullyDownloaded l d eps = false) ∧
    (l ≠ [] → 0 < d →
      (isFullyDownloaded l d eps = true ↔
        d - eps ≤ coveredSeconds (mergeRanges l eps))) ∧
    (l ≠ [] → 0 < d → 0 < eps →
      coveredSeconds (mergeRanges l eps) = d - eps / 2 →
      isFullyDownloaded l d eps = true) ∧
    (l ≠ [] → 0 < d → 0 < eps →
      coveredSeconds (mergeRanges l eps) = d - 2 * eps →
      isFullyDownloaded l d eps = false) := by
  refine ⟨fun h => by simp [isFullyDownloaded, h], fun h => ?_, fun h1 h2 => ?_,
    fun h1 h2 h3 hcov => ?_, fun h1 h2 h3 hcov => ?_⟩
  · by_cases hl : l = []
    · simp [isFullyDownloaded, hl]
    · simp [isFullyDownloaded, hl, h]
  · simp [isFullyDownloaded, h1, not_le.mpr h2]
  · simp only [isFullyDownloaded, if_neg h1, if_neg (not_le.mpr h2),
      decide_eq_true_eq, hcov]
    linarith
  · simp only [isFullyDownloaded, if_neg h1, if_neg (not_le.mpr h2),
      decide_eq_false_iff_not, not_le, hcov]
    linarith

theorem claim_C6_witness :
    isFullyDownloaded [⟨0, 39/4⟩] 10 (1/2) = true ∧
    isFullyDownloaded [⟨0, 9⟩] 10 (1/2) = false :=
  ⟨(claim_C6_full_coverage [⟨0, 39/4⟩] 10 (1/2)).2.2.2.1 (by simp) (by norm_num)
      (by norm_num)
      (by norm_num [coveredSeconds, mergeRanges, sortRanges, List.insertionSort,
        List.orderedInsert, rangeStartLe, mergeSorted]),
   (claim_C6_full_coverage [⟨0, 9⟩] 10 (1/2)).2.2.2.2 (by simp) (by norm_num)
      (by norm_num)
      (by norm_num [coveredSeconds, mergeRanges, sortRanges, List.insertionSort,
        List.orderedInsert, rangeStartLe, mergeSorted])⟩

/-- C7 counterexample: with duration 1 and totalSize 1 the claimed result is
`some (0, 0)` (the byte range `[0, totalSize-1]`), but `timeToByteRange`
returns `none` because the clamped end `min (1-1) ⌊1*1⌋ = 0` is not greater
than the start. -/
theorem claim_C7_counterexample :
    timeToByteRange 0 1 1 1 = none ∧ timeToByteRange 0 1 1 1 ≠ some (0, 0) := by
  have h : timeToByteRange 0 1 1 1 = none := by norm_num [timeToByteRange]
  refine ⟨h, ?_⟩
  rw [h]
  simp

/-- C7 amended: for every duration > 0 and every integer totalSize ≥ 2,
`timeToByteRange 0 duration duration totalSize` returns exactly the byte
range `[0, totalSize - 1]`; the degenerate case totalSize = 1 returns
`none` instead. -/
theorem claim_C7_full_span (d : ℚ) (n : ℤ) (hd : 0 < d) (hn : 2 ≤ n) :
    timeToByteRange 0 d d n = some (0, n - 1) := by
  have hd0 : d ≠ 0 := ne_of_gt hd
  have h1 : (0 : ℚ) / d * (n : ℚ) = 0 := by simp
  have h2 : d / d * (n : ℚ) = (n : ℚ) := by rw [div_self hd0, one_mul]
  unfold timeToByteRange
  rw [if_neg (by push_neg; exact ⟨hd0, by omega, le_refl 0, hd⟩)]
  simp only [h1, h2, Int.floor_zero, Int.floor_intCast, max_self]
  rw [min_eq_left (by omega), if_neg (by omega)]

theorem claim_C7_witness : timeToByteRange 0 1 1 10 = some (0, 9) := by
  have h := claim_C7_full_span 1 10 (by norm_num) (by norm_num)
  norm_num at h
  exact h

/-- C8: on a progress signal that is not fully covered, if
`lastProbedEnd ≥ 0` and the end of the last merged range is within the
throttle interval (`progressThrottleMs / 1000`) of `lastProbedEnd`, the
progress update is a complete no-op: all four state fields are unchanged and
no emission occurs. -/
theorem claim_C8_throttle_noop (eps throttleMs duration : ℚ) (totalSize : ℤ)
    (env : EmitEnv) (s : TrackerState) (ranges : List BufferedRange)
    (hwf : ∀ r ∈ ranges, r.start < r.stop) (heps : 0 ≤ eps)
    (hfull : isFullyDownloaded ranges duration eps = false)
    (hlp : 0 ≤ s.lastProbedEnd)
    (hthr : lastStop (mergeRanges ranges eps) - s.lastProbedEnd <
      throttleMs / 1000) :
    progressHandler eps throttleMs duration totalSize env s ranges =
      (s, none) := by
  have hupd : updateProgressEstimate throttleMs duration totalSize s ranges = s := by
    unfold updateProgressEstimate
    cases hL : ranges.getLast? with
    | none => rfl
    | some lastRange =>
      have hmem : lastRange ∈ ranges := by
        obtain ⟨h, heq⟩ := List.mem_getLast?_eq_getLast (Option.mem_def.mpr hL)
        rw [heq]
        exact List.getLast_mem h
      have hle := stop_le_lastStop_mergeRanges ranges eps hwf heps hmem
      exact if_pos ⟨hlp, by linarith⟩
  unfold progressHandler
  split
  · rfl
  split
  · rfl
  split
  · rfl
  split
  · rename_i h
    rw [hfull] at h
    cases h
  · rw [hupd]

theorem claim_C8_witness :
    progressHandler (1/2) 250 100 1000 ⟨false, true⟩
      ⟨0, 0, false, 1⟩ [⟨0, 11/10⟩] = (⟨0, 0, false, 1⟩, none) :=
  claim_C8_throttle_noop (1/2) 250 100 1000 ⟨false, true⟩ ⟨0, 0, false, 1⟩
    [⟨0, 11/10⟩] (by norm_num) (by norm_num)
    (by norm_num [isFullyDownloaded, mergeRanges, sortRanges,
      List.insertionSort, List.orderedInsert, rangeStartLe, mergeSorted,
      coveredSeconds])
    (by norm_num)
    (by norm_num [lastStop, mergeRanges, sortRanges, List.insertionSort,
      List.orderedInsert, rangeStartLe, mergeSorted, List.getLastD])

/-- C1: evaluation at the failing input.  `performFinalProbe` hands the RAW
buffered ranges to `calculateTotalBytes` without merging, so the duplicated
range `[0,10]` (duration 10, totalSize 100, default epsilon 0.5) is double
counted: the probe uses 200 bytes (visible as the new baseline), while the
claimed `calculateTotalBytes (mergeRanges ranges eps)` is 100. -/
theorem claim_C1_raw_vs_merged :
    (performFinalProbe 10 100 ⟨false, true⟩ initState
        [⟨0, 10⟩, ⟨0, 10⟩]).1.submittedBytesBaseline = 200 ∧
    calculateTotalBytes (mergeRanges [⟨0, 10⟩, ⟨0, 10⟩] (1/2)) 10 100 = 100 := by
  constructor
  · have hne : ([⟨(0 : ℚ), (10 : ℚ)⟩, ⟨0, 10⟩] : List BufferedRange) ≠ [] :=
      List.cons_ne_nil _ _
    norm_num [performFinalProbe, updateDownloadMetrics, handleBufferData,
      initState, calculateTotalBytes, timeToByteRange, hne]
  · norm_num [calculateTotalBytes, timeToByteRange, mergeRanges, sortRanges,
      List.insertionSort, List.orderedInsert, rangeStartLe, mergeSorted]

/-- C2 counterexample: an analytics delivery failure (deliveryOk = false,
callback fine) during a finalize at ranges [0,5], duration 10,
totalSize 1000 does NOT skip the reset: submittedBytesBaseline is advanced
to the new totalBytes 501, estimatedDownloadedBytes is reset to 0, and a
second identical finalize emits nothing — the unsent delta is lost, contrary
to the claim. -/
theorem claim_C2_counterexample :
    (finalizeHandler 10 1000 ⟨false, false⟩ initState
        [⟨0, 5⟩]).1.submittedBytesBaseline = 501 ∧
    (finalizeHandler 10 1000 ⟨false, false⟩ initState
        [⟨0, 5⟩]).1.estimatedDownloadedBytes = 0 ∧
    (finalizeHandler 10 1000 ⟨false, false⟩
        (finalizeHandler 10 1000 ⟨false, false⟩ initState [⟨0, 5⟩]).1
        [⟨0, 5⟩]).2 = none := by
  norm_num [finalizeHandler, performFinalProbe, updateDownloadMetrics,
    handleBufferData, initState, calculateTotalBytes, timeToByteRange]

/-- C2 amended: only a throwing user callback aborts the emission dispatch
(analytics delivery failures are swallowed by the service); in that case the
reset of estimatedDownloadedBytes and lastProbedEnd is skipped, but
submittedBytesBaseline is still advanced to the new totalBytes, so the
unsent delta is not reproduced by the next finalize trigger. -/
theorem claim_C2_callback_failure (totalSize : ℤ) (env : EmitEnv)
    (s : TrackerState) (totalBytes : ℤ) (hfail : env.callbackThrows = true)
    (hdelta : s.submittedBytesBaseline < totalBytes) :
    (updateDownloadMetrics totalSize env s totalBytes).1.estimatedDownloadedBytes
        = totalBytes - s.submittedBytesBaseline ∧
    (updateDownloadMetrics totalSize env s totalBytes).1.lastProbedEnd
        = s.lastProbedEnd ∧
    (updateDownloadMetrics totalSize env s totalBytes).1.submittedBytesBaseline
        = totalBytes ∧
    (updateDownloadMetrics totalSize env s totalBytes).2
        = some (totalBytes - s.submittedBytesBaseline) := by
  have hmax : (0 : ℤ) ⊔ (totalBytes - s.submittedBytesBaseline) =
      totalBytes - s.submittedBytesBaseline := max_eq_right (by linarith)
  have hz : ¬ ((0 : ℤ) ⊔ (totalBytes - s.submittedBytesBaseline) ≤ 0) := by
    rw [hmax]
    linarith
  have hz2 : ¬ (totalBytes ≤ s.submittedBytesBaseline) := not_le.mpr hdelta
  unfold updateDownloadMetrics handleBufferData
  by_cases hts : totalSize ≤ totalBytes <;> simp [hts, hz, hz2, hfail, hmax]

theorem claim_C2_witness :
    (updateDownloadMetrics 1000 ⟨true, true⟩ initState
        501).1.estimatedDownloadedBytes = 501 - 0 ∧
    (updateDownloadMetrics 1000 ⟨true, true⟩ initState
        501).1.lastProbedEnd = initState.lastProbedEnd ∧
    (updateDownloadMetrics 1000 ⟨true, true⟩ initState
        501).1.submittedBytesBaseline = 501 ∧
    (updateDownloadMetrics 1000 ⟨true, true⟩ initState 501).2
        = some (501 - 0) :=
  claim_C2_callback_failure 1000 ⟨true, true⟩ initState 501 rfl (by norm_num [initState])

/-- C3: two consecutive finalize triggers with identical buffered ranges and
a successful first emission: the second finalize computes
estimatedDownloadedBytes = 0 and emits nothing, so the same bytes are never
reported twice. -/
theorem claim_C3_no_double_report (duration : ℚ) (totalSize : ℤ)
    (env1 env2 : EmitEnv) (s0 : TrackerState) (ranges : List BufferedRange)
    (hd : duration ≠ 0) (hts : totalSize ≠ 0) (hne : ranges ≠ [])
    (hok : env1.callbackThrows = false)
    (hnotfull : s0.hasSubmittedFullDownload = false) :
    (finalizeHandler duration totalSize env2
        (finalizeHandler duration totalSize env1 s0 ranges).1
        ranges).1.estimatedDownloadedBytes = 0 ∧
    (finalizeHandler duration totalSize env2
        (finalizeHandler duration totalSize env1 s0 ranges).1
        ranges).2 = none := by
  have hfirst : finalizeHandler duration totalSize env1 s0 ranges =
      updateDownloadMetrics totalSize env1 s0
        (calculateTotalBytes ranges duration totalSize) := by
    unfold finalizeHandler performFinalProbe
    simp [hnotfull, hd, hts, hne]
  obtain ⟨hest1, hfull1⟩ :=
    updateDownloadMetrics_after_ok totalSize env1 s0
      (calculateTotalBytes ranges duration totalSize) hok
  rw [hnotfull, Bool.false_or] at hfull1
  have hbase1 :=
    updateDownloadMetrics_baseline totalSize env1 s0
      (calculateTotalBytes ranges duration totalSize)
  rw [hfirst]
  by_cases hfull : totalSize ≤ calculateTotalBytes ranges duration totalSize
  · have hflag : (updateDownloadMetrics totalSize env1 s0
        (calculateTotalBytes ranges duration
          totalSize)).1.hasSubmittedFullDownload = true := by
      rw [hfull1, decide_eq_true_eq]
      exact hfull
    unfold finalizeHandler
    simp only [hflag, if_true]
    exact ⟨hest1, trivial⟩
  · have hflag : (updateDownloadMetrics totalSize env1 s0
        (calculateTotalBytes ranges duration
          totalSize)).1.hasSubmittedFullDownload = false := by
      rw [hfull1, decide_eq_false_iff_not]
      exact hfull
    have hz := updateDownloadMetrics_zero_delta totalSize env2
      (updateDownloadMetrics totalSize env1 s0
        (calculateTotalBytes ranges duration totalSize)).1
      (calculateTotalBytes ranges duration totalSize) (le_of_eq hbase1.symm)
    unfold finalizeHandler performFinalProbe
    simp only [hflag, Bool.false_eq_true, if_false]
    rw [if_neg (not_or.mpr ⟨hd, hts⟩), if_neg hne, hz]
    exact ⟨rfl, rfl⟩

theorem claim_C3_witness :
    (finalizeHandler 10 1000 ⟨false, true⟩
        (finalizeHandler 10 1000 ⟨false, true⟩ initState [⟨0, 5⟩]).1
        [⟨0, 5⟩]).1.estimatedDownloadedBytes = 0 ∧
    (finalizeHandler 10 1000 ⟨false, true⟩
        (finalizeHandler 10 1000 ⟨false, true⟩ initState [⟨0, 5⟩]).1
        [⟨0, 5⟩]).2 = none :=
  claim_C3_no_double_report 10 1000 ⟨false, true⟩ ⟨false, true⟩ initState
    [⟨0, 5⟩] (by norm_num) (by norm_num) (List.cons_ne_nil _ _) rfl rfl

/-- C4 counterexample: from the initial state, a finalize over ranges [0,5]
(501 bytes, emission succeeds) sets submittedBytesBaseline to 501; a second
finalize over the smaller ranges [0,2] (201 bytes) emits nothing, yet
overwrites submittedBytesBaseline with 201 < 501 — the baseline is lowered
by an operation that emitted nothing, refuting both monotonicity and
"changes only as part of a successful emission". -/
theorem claim_C4_counterexample :
    (finalizeHandler 10 1000 ⟨false, true⟩ initState
        [⟨0, 5⟩]).1.submittedBytesBaseline = 501 ∧
    (finalizeHandler 10 1000 ⟨false, true⟩
        (finalizeHandler 10 1000 ⟨false, true⟩ initState [⟨0, 5⟩]).1
        [⟨0, 2⟩]).2 = none ∧
    (finalizeHandler 10 1000 ⟨false, true⟩
        (finalizeHandler 10 1000 ⟨false, true⟩ initState [⟨0, 5⟩]).1
        [⟨0, 2⟩]).1.submittedBytesBaseline = 201 := by
  norm_num [finalizeHandler, performFinalProbe, updateDownloadMetrics,
    handleBufferData, initState, calculateTotalBytes, timeToByteRange]

/-- C4 amended: `submittedBytesBaseline` is overwritten with the computed
totalBytes by every `updateDownloadMetrics` call, unconditionally — whether
or not anything was emitted and whatever the emission outcome — and no other
operation (`handleBufferData`, `updateProgressEstimate`,
`handleFullDownload`) ever changes it; so it is non-decreasing only while
the computed byte totals are. -/
theorem claim_C4_baseline_unconditional (totalSize : ℤ) (env : EmitEnv)
    (s : TrackerState) (totalBytes : ℤ) (throttleMs duration : ℚ)
    (ranges : List BufferedRange) :
    (updateDownloadMetrics totalSize env s totalBytes).1.submittedBytesBaseline
        = totalBytes ∧
    (handleBufferData env s).1.submittedBytesBaseline
        = s.submittedBytesBaseline ∧
    (updateProgressEstimate throttleMs duration totalSize s
        ranges).submittedBytesBaseline = s.submittedBytesBaseline ∧
    (handleFullDownload totalSize env s).1.submittedBytesBaseline
        = s.submittedBytesBaseline := by
  refine ⟨updateDownloadMetrics_baseline totalSize env s totalBytes, ?_, ?_, ?_⟩
  · unfold handleBufferData
    split
    · rfl
    split
    · rfl
    · rfl
  · unfold updateProgressEstimate
    cases ranges.getLast? with
    | none => rfl
    | some lastRange =>
      by_cases h1 : 0 ≤ s.lastProbedEnd ∧
          lastRange.stop - s.lastProbedEnd < throttleMs / 1000
      · simp [h1]
      · by_cases h2 : 0 < calculateTotalBytes ranges duration totalSize <;>
          simp [h1, h2]
  · unfold handleFullDownload handleBufferData
    split
    · rfl
    split
    · rfl
    · rfl
